import Mathlib

/-!
Verification of the batch text-correction pipeline of `ocr_translation`
(`clean.py` together with `utils/file_handling.py`).

The effectful parts are embedded explicitly:

* The filesystem is an association list from paths to file contents.
  A path absent from the list is unreadable (missing file, permission,
  or decode error).  Directory creation (`ensure_dir`, `os.makedirs`)
  has no observable effect on this file map and is therefore dropped.
* `clean_markdown_with_llm` returns, besides its results dictionary,
  the filesystem after the call and the list of contents with which the
  model was invoked (the call log).
* Python `pathlib` operations (`Path.name`, `Path.stem`, `Path.suffix`,
  `Path.relative_to`, `p in q.parents`, `/`) are embedded over character
  lists, faithfully to CPython's `PurePath` for slash-separated paths.
-/

/-- The filesystem: an association list from paths to file contents.
A path absent from the list cannot be read. -/
structure FS where
  files : List (String × String)
deriving Repr, DecidableEq

/-- Look up the contents of the file at path `p`. -/
def FS.readFile (fs : FS) (p : String) : Option String :=
  (fs.files.find? (fun q => q.1 == p)).map Prod.snd

/-- Overwrite (or create) the file at path `p` with contents `v`. -/
def FS.setFile (fs : FS) (p v : String) : FS :=
  ⟨(p, v) :: fs.files.filter (fun q => q.1 != p)⟩

/-! ## Path machinery (CPython `pathlib.PurePath` semantics) -/

/-- Split a character list at every `'/'` (components may be empty). -/
def splitSlash : List Char → List (List Char)
  | [] => [[]]
  | c :: cs =>
    if c = '/' then [] :: splitSlash cs
    else
      match splitSlash cs with
      | [] => [[c]]
      | p :: ps => (c :: p) :: ps

/-- Python `Path(p).parts` for a slash-separated path: the nonempty components
(the anchor of an absolute path is not listed). -/
def pathParts (p : String) : List String :=
  ((splitSlash p.toList).map (fun l => String.mk l)).filter (fun s => s != "")

/-- Join components with `/` (no leading or trailing separator). -/
def joinComponents : List String → String
  | [] => ""
  | [x] => x
  | x :: xs => x ++ "/" ++ joinComponents xs

/-- Whether the path is absolute (starts with `'/'`). -/
def isAbs (p : String) : Bool :=
  p.toList.head? == some '/'

/-- Embeds `str(Path(base) / rel)` where `rel` is given by its components:
the components of `base` followed by `rel`, rejoined, keeping the anchor
of an absolute `base`. -/
def joinParts (base : String) (rel : List String) : String :=
  let core := joinComponents (pathParts base ++ rel)
  if isAbs base then "/" ++ core else core

/-- Python `Path(p).name`: the final path component. -/
def pathName (p : String) : String :=
  (pathParts p).getLastD ""

/-- Index of the last `'.'` in the character list, if any. -/
def dotIndex? (cs : List Char) : Option Nat :=
  let tl := (cs.reverse.takeWhile (fun c => c != '.')).length
  if tl < cs.length then some (cs.length - 1 - tl) else none

/-- Python `Path.suffix` of a file name: from the last dot on, unless that dot
is leading or trailing. -/
def nameSuffix (name : String) : String :=
  let cs := name.toList
  match dotIndex? cs with
  | some i => if 0 < i ∧ i < cs.length - 1 then String.mk (cs.drop i) else ""
  | none => ""

/-- Python `Path.stem` of a file name: the name with `nameSuffix` removed. -/
def nameStem (name : String) : String :=
  let cs := name.toList
  match dotIndex? cs with
  | some i => if 0 < i ∧ i < cs.length - 1 then String.mk (cs.take i) else name
  | none => name

/-- Python `Path(a) in Path(b).parents`: the parts of `a` are a proper prefix of
the parts of `b`. -/
def inParents (a b : String) : Bool :=
  (pathParts a).isPrefixOf (pathParts b) && pathParts a != pathParts b

/-! ## `utils/file_handling.py` -/

/-- Function `read_markdown`: the contents of the file, or `none` when reading
fails. -/
def read_markdown (fs : FS) (file_path : String) : Option String :=
  fs.readFile file_path

/-- Function `get_output_path` with its default `suffix=None`, as `clean.py` calls
it: `Path(output_dir) / f"{stem}{suffix}"` of the input's file name.
(Its `ensure_dir(output_dir)` call only creates a directory, which the
file map does not track.) -/
def get_output_path (input_path output_dir : String) : String :=
  let name := pathName input_path
  joinParts output_dir (pathParts (nameStem name ++ nameSuffix name))

/-! ## `clean.py` -/

def DEFAULT_OUTPUT_DIR : String := "cleaned"

def DEFAULT_FILE_PATTERN : String := "*.md"

/-- Modelled from the spec: the collaborators of `clean.py` living in
`utils/utils.py`, which is not under `src/`.  `ctorOk` is whether
`utils.TextAI(model=model)` succeeds (an unsupported model identifier
fails with a configuration error); `llm` is `ai_client.call` applied to
the document content (system/user prompts, model and temperature are
fixed parameters of the run), one outbound call per invocation,
returning corrected text or raising; `writable` is whether a write to
the given path succeeds (permissions, disk full); `find_files` is
`utils.find_files(directory, pattern)`, enumerating the matching files
of a directory, shallow glob, in enumeration order. -/
structure Env where
  ctorOk : Bool
  llm : String → Except String String
  writable : String → Bool
  find_files : String → String → List String

/-- Function `save_markdown`: write the text at `output_path`, returning `True`
on success; on failure the file map is unchanged. -/
def save_markdown (env : Env) (fs : FS) (markdown_text output_path : String) :
    Bool × FS :=
  if env.writable output_path then (true, fs.setFile output_path markdown_text)
  else (false, fs)

/-- The results dictionary of `clean_markdown_with_llm`. -/
structure Results where
  success : Bool
  input_path : String
  output_path : Option String
  cleaned_text : Option String
deriving Repr, DecidableEq

/-- Function `clean_markdown_with_llm`: read the input, derive the output path if
none was supplied, call the model, save the result.  Returns the results
dictionary, the filesystem after the call, and the list of contents the
model was called with. -/
def clean_markdown_with_llm (env : Env) (fs : FS) (input_path : String)
    (output_path : Option String) : Results × FS × List String :=
  let results : Results :=
    { success := false, input_path := input_path,
      output_path := output_path, cleaned_text := none }
  match read_markdown fs input_path with
  | none => (results, fs, [])
  | some markdown_text =>
    let outPath :=
      match output_path with
      | none => get_output_path input_path DEFAULT_OUTPUT_DIR
      | some p => p
    let results := { results with output_path := some outPath }
    if env.ctorOk then
      match env.llm markdown_text with
      | Except.error _ => (results, fs, [markdown_text])
      | Except.ok cleaned_text =>
        let results := { results with cleaned_text := some cleaned_text }
        match save_markdown env fs cleaned_text outPath with
        | (true, fs') => ({ results with success := true }, fs', [markdown_text])
        | (false, fs') => (results, fs', [markdown_text])
    else (results, fs, [])

/-- The per-file output path of `batch_clean_directory`:
`file_path.relative_to(input_dir)` re-rooted under `output_dir` when
`Path(input_dir) in file_path.parents`, else `output_dir / file_path.name`. -/
def batchOutputPath (input_dir output_dir file_path : String) : String :=
  if inParents input_dir file_path then
    joinParts output_dir ((pathParts file_path).drop (pathParts input_dir).length)
  else
    joinParts output_dir (pathParts (pathName file_path))

/-- The per-file loop of `batch_clean_directory`, threading the
filesystem through the sequential calls. -/
def runBatch (env : Env) (input_dir output_dir : String) :
    List String → FS → List Results × FS
  | [], fs => ([], fs)
  | f :: rest, fs =>
    let out := batchOutputPath input_dir output_dir f
    let step := clean_markdown_with_llm env fs f (some out)
    let tail := runBatch env input_dir output_dir rest step.2.1
    (step.1 :: tail.1, tail.2)

/-- Function `batch_clean_directory`: enumerate the matching files, then clean
each sequentially (its early return on an empty enumeration coincides
with the loop over the empty list; `ensure_dir(output_dir)` and
`print_batch_summary` have no effect on the file map or the records). -/
def batch_clean_directory (env : Env) (fs : FS)
    (input_dir output_dir file_pattern : String) : List Results × FS :=
  runBatch env input_dir output_dir (env.find_files input_dir file_pattern) fs

/-! ## Basic lemmas about the filesystem and the pipeline -/

theorem FS.readFile_setFile_self (fs : FS) (p v : String) :
    (fs.setFile p v).readFile p = some v := by
  simp [FS.readFile, FS.setFile, List.find?]

theorem find?_filter_of_ne (l : List (String × String)) (p q : String)
    (h : q ≠ p) :
    (l.filter (fun r => r.1 != p)).find? (fun r => r.1 == q)
      = l.find? (fun r => r.1 == q) := by
  induction l with
  | nil => rfl
  | cons a l ih =>
    by_cases ha : a.1 = p
    · have hq : (a.1 == q) = false := by
        rw [beq_eq_false_iff_ne, ha]
        exact fun hc => h hc.symm
      have hfp : (a.1 != p) = false := by simp [ha]
      simp only [List.filter_cons, hfp, Bool.false_eq_true, if_false,
        List.find?_cons, hq, ih]
    · have hfp : (a.1 != p) = true := by simp [ha]
      by_cases haq : a.1 = q
      · have hq : (a.1 == q) = true := by simp [haq]
        simp only [List.filter_cons, hfp, if_true, List.find?_cons, hq, ih]
      · have hq : (a.1 == q) = false := by simp [haq]
        simp only [List.filter_cons, hfp, if_true, List.find?_cons, hq, ih]

theorem FS.readFile_setFile_ne (fs : FS) (p v q : String) (h : q ≠ p) :
    (fs.setFile p v).readFile q = fs.readFile q := by
  have hp : (p == q) = false := by
    simp
    exact fun hc => h hc.symm
  simp [FS.readFile, FS.setFile, List.find?, hp, find?_filter_of_ne fs.files p q h]

theorem FS.setFile_setFile_self (fs : FS) (p v : String) :
    (fs.setFile p v).setFile p v = fs.setFile p v := by
  simp [FS.setFile, List.filter_filter]

/-- Normal form of `clean_markdown_with_llm` when the read succeeds and the
model client could be constructed. -/
theorem clean_eq_of_read (env : Env) (fs : FS) (ip : String) (op : Option String)
    (text : String) (hr : read_markdown fs ip = some text)
    (hc : env.ctorOk = true) :
    clean_markdown_with_llm env fs ip op =
      (fun outP =>
        match env.llm text with
        | Except.error _ =>
          ({ success := false, input_path := ip, output_path := some outP,
             cleaned_text := none }, fs, [text])
        | Except.ok c =>
          if env.writable outP then
            ({ success := true, input_path := ip, output_path := some outP,
               cleaned_text := some c }, fs.setFile outP c, [text])
          else
            ({ success := false, input_path := ip, output_path := some outP,
               cleaned_text := some c }, fs, [text]))
        (op.getD (get_output_path ip DEFAULT_OUTPUT_DIR)) := by
  cases op with
  | none =>
    simp only [clean_markdown_with_llm, hr, hc, if_true, Option.getD]
    cases env.llm text with
    | error e => rfl
    | ok c =>
      simp only [save_markdown]
      by_cases hw : env.writable (get_output_path ip DEFAULT_OUTPUT_DIR) <;>
        simp [hw]
  | some p =>
    simp only [clean_markdown_with_llm, hr, hc, if_true, Option.getD]
    cases env.llm text with
    | error e => rfl
    | ok c =>
      simp only [save_markdown]
      by_cases hw : env.writable p <;> simp [hw]

theorem clean_input_path_eq (env : Env) (fs : FS) (ip : String)
    (op : Option String) :
    (clean_markdown_with_llm env fs ip op).1.input_path = ip := by
  cases hr : read_markdown fs ip with
  | none => simp [clean_markdown_with_llm, hr]
  | some text =>
    cases hc : env.ctorOk with
    | false => simp [clean_markdown_with_llm, hr, hc]
    | true =>
      rw [clean_eq_of_read env fs ip op text hr hc]
      cases env.llm text with
      | error e => rfl
      | ok c =>
        by_cases hw : env.writable (op.getD (get_output_path ip DEFAULT_OUTPUT_DIR)) <;>
          simp [hw]

/-! ## Concrete fixtures used by the witness theorems -/

/-- A concrete environment where everything succeeds and the model echoes
its input. -/
def envEcho : Env :=
  { ctorOk := true, llm := fun s => Except.ok s,
    writable := fun _ => true, find_files := fun _ _ => [] }

/-- A concrete environment where everything succeeds and the model edits
its input. -/
def envEdit : Env :=
  { ctorOk := true, llm := fun s => Except.ok (s ++ "!"),
    writable := fun _ => true, find_files := fun _ _ => [] }

/-- A concrete environment whose model call always raises. -/
def envRaise : Env :=
  { ctorOk := true, llm := fun _ => Except.error "provider error",
    writable := fun _ => true, find_files := fun _ _ => [] }

/-- A concrete environment where no path is writable. -/
def envNoWrite : Env :=
  { ctorOk := true, llm := fun s => Except.ok (s ++ "!"),
    writable := fun _ => false, find_files := fun _ _ => [] }

/-- A concrete filesystem holding one markdown file. -/
def fsOne : FS := ⟨[("docs/a.md", "bonjour")]⟩

/-- A concrete filesystem holding one empty markdown file. -/
def fsEmptyFile : FS := ⟨[("docs/empty.md", "")]⟩

/-! ## The claims -/

/-- C1: the Outcome Record of `clean_markdown_with_llm` has
`success = true` only if the read, the model call, and the write all
succeeded; and then the cleaned text is present in the record, recorded
under the record's output path, and written to that path in the
resulting filesystem.  (The `success = false` half of the invariant —
content absent or not guaranteed written — imposes no constraint on the
code.) -/
theorem clean_success_implies_read_call_write (env : Env) (fs : FS)
    (ip : String) (op : Option String)
    (h : (clean_markdown_with_llm env fs ip op).1.success = true) :
    ∃ text cleaned outP,
      read_markdown fs ip = some text ∧
      env.ctorOk = true ∧
      env.llm text = Except.ok cleaned ∧
      env.writable outP = true ∧
      (clean_markdown_with_llm env fs ip op).1.cleaned_text = some cleaned ∧
      (clean_markdown_with_llm env fs ip op).1.output_path = some outP ∧
      (clean_markdown_with_llm env fs ip op).2.1.readFile outP = some cleaned := by
  cases hr : read_markdown fs ip with
  | none => simp [clean_markdown_with_llm, hr] at h
  | some text =>
    cases hc : env.ctorOk with
    | false => simp [clean_markdown_with_llm, hr, hc] at h
    | true =>
      rw [clean_eq_of_read env fs ip op text hr hc] at h ⊢
      cases hl : env.llm text with
      | error e => simp [hl] at h
      | ok c =>
        cases hw : env.writable (op.getD (get_output_path ip DEFAULT_OUTPUT_DIR)) with
        | false => simp [hl, hw] at h
        | true =>
          refine ⟨text, c, op.getD (get_output_path ip DEFAULT_OUTPUT_DIR),
            ?_, ?_, ?_, ?_, ?_, ?_, ?_⟩ <;>
            simp [hl, hw, hr, hc, FS.readFile_setFile_self]

theorem clean_success_implies_read_call_write_witness :
    ∃ text cleaned outP,
      read_markdown fsOne "docs/a.md" = some text ∧
      envEdit.ctorOk = true ∧
      envEdit.llm text = Except.ok cleaned ∧
      envEdit.writable outP = true ∧
      (clean_markdown_with_llm envEdit fsOne "docs/a.md"
        (some "out/a.md")).1.cleaned_text = some cleaned ∧
      (clean_markdown_with_llm envEdit fsOne "docs/a.md"
        (some "out/a.md")).1.output_path = some outP ∧
      (clean_markdown_with_llm envEdit fsOne "docs/a.md"
        (some "out/a.md")).2.1.readFile outP = some cleaned :=
  clean_success_implies_read_call_write envEdit fsOne "docs/a.md"
    (some "out/a.md") (by decide)

/-- C2: when the read fails, `clean_markdown_with_llm` returns a record
with `success = false` and no cleaned text, and the model is never
invoked (the call log is empty). -/
theorem clean_read_failure_no_model_call (env : Env) (fs : FS) (ip : String)
    (op : Option String) (h : read_markdown fs ip = none) :
    (clean_markdown_with_llm env fs ip op).1.success = false ∧
    (clean_markdown_with_llm env fs ip op).1.cleaned_text = none ∧
    (clean_markdown_with_llm env fs ip op).2.2 = [] := by
  simp [clean_markdown_with_llm, h]

theorem clean_read_failure_no_model_call_witness :
    (clean_markdown_with_llm envEcho fsOne "missing.md" none).1.success = false ∧
    (clean_markdown_with_llm envEcho fsOne "missing.md" none).1.cleaned_text = none ∧
    (clean_markdown_with_llm envEcho fsOne "missing.md" none).2.2 = [] :=
  clean_read_failure_no_model_call envEcho fsOne "missing.md" none (by decide)

/-- C3: when the model call raises, `clean_markdown_with_llm` returns a
record with `success = false` and leaves the filesystem exactly as it
was (the output file is neither created nor modified); the definition is
a total function, so no exception reaches the caller. -/
theorem clean_model_error_recovered (env : Env) (fs : FS) (ip : String)
    (op : Option String) (text e : String)
    (hr : read_markdown fs ip = some text) (hc : env.ctorOk = true)
    (hl : env.llm text = Except.error e) :
    (clean_markdown_with_llm env fs ip op).1.success = false ∧
    (clean_markdown_with_llm env fs ip op).2.1 = fs := by
  rw [clean_eq_of_read env fs ip op text hr hc]
  simp [hl]

theorem clean_model_error_recovered_witness :
    (clean_markdown_with_llm envRaise fsOne "docs/a.md" none).1.success = false ∧
    (clean_markdown_with_llm envRaise fsOne "docs/a.md" none).2.1 = fsOne :=
  clean_model_error_recovered envRaise fsOne "docs/a.md" none "bonjour"
    "provider error" (by decide) (by decide) rfl

/-- C4: when the model call succeeds but the write fails,
`clean_markdown_with_llm` returns `success = false` with the cleaned
text nevertheless present in the record. -/
theorem clean_write_failure_keeps_text (env : Env) (fs : FS) (ip : String)
    (op : Option String) (text cleaned : String)
    (hr : read_markdown fs ip = some text) (hc : env.ctorOk = true)
    (hl : env.llm text = Except.ok cleaned)
    (hw : env.writable (op.getD (get_output_path ip DEFAULT_OUTPUT_DIR)) = false) :
    (clean_markdown_with_llm env fs ip op).1.success = false ∧
    (clean_markdown_with_llm env fs ip op).1.cleaned_text = some cleaned := by
  rw [clean_eq_of_read env fs ip op text hr hc]
  simp [hl, hw]

theorem clean_write_failure_keeps_text_witness :
    (clean_markdown_with_llm envNoWrite fsOne "docs/a.md"
      (some "out/a.md")).1.success = false ∧
    (clean_markdown_with_llm envNoWrite fsOne "docs/a.md"
      (some "out/a.md")).1.cleaned_text = some "bonjour!" :=
  clean_write_failure_keeps_text envNoWrite fsOne "docs/a.md"
    (some "out/a.md") "bonjour" "bonjour!" (by decide) (by decide)
    rfl (by decide)

/-- C9: a file that reads successfully as the empty string is still
passed to the model — the call log is exactly `[""]`, whatever the model
then returns. -/
theorem clean_empty_content_still_calls_model (env : Env) (fs : FS)
    (ip : String) (op : Option String)
    (hr : read_markdown fs ip = some "") (hc : env.ctorOk = true) :
    (clean_markdown_with_llm env fs ip op).2.2 = [""] := by
  rw [clean_eq_of_read env fs ip op "" hr hc]
  cases env.llm "" with
  | error e => rfl
  | ok c =>
    by_cases hw : env.writable (op.getD (get_output_path ip DEFAULT_OUTPUT_DIR)) <;>
      simp [hw]

theorem clean_empty_content_still_calls_model_witness :
    (clean_markdown_with_llm envEcho fsEmptyFile "docs/empty.md" none).2.2 = [""] :=
  clean_empty_content_still_calls_model envEcho fsEmptyFile "docs/empty.md"
    none (by decide) (by decide)

/-- C10: when the read fails, the record's `output_path` is exactly the
caller-supplied argument (`none` when none was given — no default path is
derived) and `cleaned_text` is `none`. -/
theorem clean_read_failure_frame (env : Env) (fs : FS) (ip : String)
    (op : Option String) (h : read_markdown fs ip = none) :
    (clean_markdown_with_llm env fs ip op).1.output_path = op ∧
    (clean_markdown_with_llm env fs ip op).1.cleaned_text = none := by
  simp [clean_markdown_with_llm, h]

theorem clean_read_failure_frame_witness :
    (clean_markdown_with_llm envEcho fsOne "missing.md" none).1.output_path = none ∧
    (clean_markdown_with_llm envEcho fsOne "missing.md" none).1.cleaned_text = none :=
  clean_read_failure_frame envEcho fsOne "missing.md" none (by decide)

theorem runBatch_map_input_path (env : Env) (idir odir : String) :
    ∀ (files : List String) (fs : FS),
      (runBatch env idir odir files fs).1.map (fun r => r.input_path) = files := by
  intro files
  induction files with
  | nil => intro fs; rfl
  | cons f rest ih =>
    intro fs
    simp only [runBatch, List.map_cons, clean_input_path_eq, ih]

/-- C7: `batch_clean_directory` returns exactly one Outcome Record per
enumerated file, in enumeration order (the records' input paths are the
enumerated files, in order), and returns the empty list when the
enumeration is empty. -/
theorem batch_one_record_per_file (env : Env) (fs : FS)
    (input_dir output_dir file_pattern : String) :
    (batch_clean_directory env fs input_dir output_dir file_pattern).1.map
        (fun r => r.input_path) = env.find_files input_dir file_pattern ∧
    (batch_clean_directory env fs input_dir output_dir file_pattern).1.length
        = (env.find_files input_dir file_pattern).length ∧
    (env.find_files input_dir file_pattern = [] →
      (batch_clean_directory env fs input_dir output_dir file_pattern).1 = []) := by
  have hmap := runBatch_map_input_path env input_dir output_dir
    (env.find_files input_dir file_pattern) fs
  refine ⟨hmap, ?_, ?_⟩
  · have := congrArg List.length hmap
    simpa using this
  · intro hnil
    simp [batch_clean_directory, hnil, runBatch]

/-- C8: when the model returns its input unchanged, running
`clean_markdown_with_llm` a second time on the same input and output
arguments leaves the filesystem of the first run exactly as it was — in
particular the output file holds byte-identical contents. -/
theorem clean_idempotent_under_identity_model (env : Env) (fs : FS)
    (ip : String) (op : Option String)
    (hid : ∀ s, env.llm s = Except.ok s) :
    (clean_markdown_with_llm env
        (clean_markdown_with_llm env fs ip op).2.1 ip op).2.1
      = (clean_markdown_with_llm env fs ip op).2.1 := by
  cases hr : read_markdown fs ip with
  | none =>
    have h1 : (clean_markdown_with_llm env fs ip op).2.1 = fs := by
      simp [clean_markdown_with_llm, hr]
    rw [h1]
    simp [clean_markdown_with_llm, hr]
  | some text =>
    cases hc : env.ctorOk with
    | false =>
      have h1 : (clean_markdown_with_llm env fs ip op).2.1 = fs := by
        simp [clean_markdown_with_llm, hr, hc]
      rw [h1]
      simp [clean_markdown_with_llm, hr, hc]
    | true =>
      cases hw : env.writable (op.getD (get_output_path ip DEFAULT_OUTPUT_DIR)) with
      | false =>
        have h1 : (clean_markdown_with_llm env fs ip op).2.1 = fs := by
          rw [clean_eq_of_read env fs ip op text hr hc]
          simp [hid text, hw]
        rw [h1]
        rw [clean_eq_of_read env fs ip op text hr hc]
        simp [hid text, hw]
      | true =>
        have h1 : (clean_markdown_with_llm env fs ip op).2.1
            = fs.setFile (op.getD (get_output_path ip DEFAULT_OUTPUT_DIR)) text := by
          rw [clean_eq_of_read env fs ip op text hr hc]
          simp [hid text, hw]
        rw [h1]
        by_cases hip : ip = op.getD (get_output_path ip DEFAULT_OUTPUT_DIR)
        · have hr2 : read_markdown
              (fs.setFile (op.getD (get_output_path ip DEFAULT_OUTPUT_DIR)) text) ip
              = some text := by
            nth_rewrite 2 [hip]
            exact FS.readFile_setFile_self fs _ text
          rw [clean_eq_of_read env _ ip op text hr2 hc]
          simp [hid text, hw, FS.setFile_setFile_self]
        · have hr2 : read_markdown
              (fs.setFile (op.getD (get_output_path ip DEFAULT_OUTPUT_DIR)) text) ip
              = some text := by
            rw [read_markdown, FS.readFile_setFile_ne fs _ text ip hip]
            exact hr
          rw [clean_eq_of_read env _ ip op text hr2 hc]
          simp [hid text, hw, FS.setFile_setFile_self]

theorem clean_idempotent_under_identity_model_witness :
    (∀ s, envEcho.llm s = Except.ok s) ∧
    (clean_markdown_with_llm envEcho
        (clean_markdown_with_llm envEcho fsOne "docs/a.md" none).2.1
        "docs/a.md" none).2.1
      = (clean_markdown_with_llm envEcho fsOne "docs/a.md" none).2.1 :=
  ⟨fun _ => rfl,
    clean_idempotent_under_identity_model envEcho fsOne "docs/a.md" none
      (fun _ => rfl)⟩

/-! ## Lemmas about the path machinery -/

theorem mem_splitSlash_no_slash (cs : List Char) :
    ∀ l ∈ splitSlash cs, '/' ∉ l := by
  induction cs with
  | nil =>
    intro l hl
    simp [splitSlash] at hl
    simp [hl]
  | cons c cs ih =>
    intro l hl
    by_cases h : c = '/'
    · rw [splitSlash, if_pos h] at hl
      rcases List.mem_cons.mp hl with rfl | hmem
      · simp
      · exact ih l hmem
    · rw [splitSlash, if_neg h] at hl
      cases hs : splitSlash cs with
      | nil => simp [hs] at hl; simp [hl, Ne.symm h]
      | cons p ps =>
        rw [hs] at hl
        rcases List.mem_cons.mp hl with rfl | hmem
        · intro hc
          rcases List.mem_cons.mp hc with hc | hc
          · exact h hc.symm
          · exact ih p (hs ▸ List.mem_cons_self p ps) hc
        · exact ih l (hs ▸ List.mem_cons_of_mem p hmem)

theorem splitSlash_no_slash (cs : List Char) (h : '/' ∉ cs) :
    splitSlash cs = [cs] := by
  induction cs with
  | nil => rfl
  | cons c cs ih =>
    have hc : ¬c = '/' := fun hh => h (hh ▸ List.mem_cons_self c cs)
    have hcs : '/' ∉ cs := fun hh => h (List.mem_cons_of_mem c hh)
    rw [splitSlash, if_neg hc, ih hcs]

theorem splitSlash_append (a b : List Char) (h : '/' ∉ a) :
    splitSlash (a ++ '/' :: b) = a :: splitSlash b := by
  induction a with
  | nil => simp [splitSlash]
  | cons c a ih =>
    have hc : ¬c = '/' := fun hh => h (hh ▸ List.mem_cons_self c a)
    have ha : '/' ∉ a := fun hh => h (List.mem_cons_of_mem c hh)
    rw [List.cons_append, splitSlash, if_neg hc, ih ha]

/-- A well-formed path component: nonempty and free of separators. -/
def goodComp (s : String) : Prop :=
  s ≠ "" ∧ '/' ∉ s.toList

instance (s : String) : Decidable (goodComp s) := by
  unfold goodComp
  infer_instance

theorem string_mk_append (a b : List Char) :
    String.mk a ++ String.mk b = String.mk (a ++ b) := rfl

theorem string_toList_append (s t : String) :
    (s ++ t).toList = s.toList ++ t.toList := by
  cases s with
  | mk a =>
    cases t with
    | mk b => rfl

theorem pathParts_single (n : String) (h1 : n ≠ "") (h2 : '/' ∉ n.toList) :
    pathParts n = [n] := by
  unfold pathParts
  rw [splitSlash_no_slash n.toList h2]
  simp [h1]

theorem pathParts_joinComponents (l : List String)
    (h : ∀ s ∈ l, goodComp s) :
    pathParts (joinComponents l) = l := by
  induction l with
  | nil => rfl
  | cons x l ih =>
    have hx := h x (List.mem_cons_self x l)
    cases l with
    | nil => exact pathParts_single x hx.1 hx.2
    | cons y l2 =>
      have hrest : ∀ s ∈ y :: l2, goodComp s :=
        fun s hs => h s (List.mem_cons_of_mem x hs)
      have htl : (joinComponents (x :: y :: l2)).toList
          = x.toList ++ '/' :: (joinComponents (y :: l2)).toList := by
        show (x ++ "/" ++ joinComponents (y :: l2)).toList = _
        rw [string_toList_append, string_toList_append, List.append_assoc]
        rfl
      have hstep : pathParts (joinComponents (x :: y :: l2))
          = x :: pathParts (joinComponents (y :: l2)) := by
        unfold pathParts
        rw [htl, splitSlash_append x.toList _ hx.2]
        simp [hx.1]
      rw [hstep, ih hrest]

theorem isAbs_joinComponents (l : List String) (h : ∀ s ∈ l, goodComp s) :
    isAbs (joinComponents l) = false := by
  cases l with
  | nil => rfl
  | cons x l2 =>
    have hx := h x (List.mem_cons_self x l2)
    have hxl : x.toList ≠ [] := by
      intro hh
      apply hx.1
      have : x = String.mk x.toList := rfl
      rw [this, hh]
    cases hc : x.toList with
    | nil => exact absurd hc hxl
    | cons c t =>
      have hcs : c ≠ '/' := by
        intro hh
        exact hx.2 (hc ▸ (hh ▸ List.mem_cons_self c t))
      cases l2 with
      | nil =>
        unfold isAbs joinComponents
        rw [hc]
        simp [hcs]
      | cons y l3 =>
        unfold isAbs
        have : (joinComponents (x :: y :: l3)).toList
            = c :: (t ++ '/' :: (joinComponents (y :: l3)).toList) := by
          show (x ++ "/" ++ joinComponents (y :: l3)).toList = _
          rw [string_toList_append, string_toList_append, hc, List.append_assoc,
            List.cons_append]
          rfl
        rw [this]
        simp [hcs]

theorem joinParts_eq (bl rel : List String) (h : ∀ s ∈ bl, goodComp s) :
    joinParts (joinComponents bl) rel = joinComponents (bl ++ rel) := by
  unfold joinParts
  rw [isAbs_joinComponents bl h, pathParts_joinComponents bl h]
  simp

theorem string_append_empty (s : String) : s ++ "" = s := by
  cases s with
  | mk a =>
    show String.mk (a ++ []) = String.mk a
    rw [List.append_nil]

theorem nameStem_append_nameSuffix (n : String) :
    nameStem n ++ nameSuffix n = n := by
  cases hd : dotIndex? n.toList with
  | none =>
    have h1 : nameStem n = n := by simp only [nameStem, hd]
    have h2 : nameSuffix n = "" := by simp only [nameSuffix, hd]
    rw [h1, h2]
    exact string_append_empty n
  | some i =>
    by_cases hcond : 0 < i ∧ i < n.toList.length - 1
    · have h1 : nameStem n = String.mk (n.toList.take i) := by
        simp only [nameStem, hd]
        rw [if_pos hcond]
      have h2 : nameSuffix n = String.mk (n.toList.drop i) := by
        simp only [nameSuffix, hd]
        rw [if_pos hcond]
      rw [h1, h2, string_mk_append, List.take_append_drop]
      rfl
    · have h1 : nameStem n = n := by
        simp only [nameStem, hd]
        rw [if_neg hcond]
      have h2 : nameSuffix n = "" := by
        simp only [nameSuffix, hd]
        rw [if_neg hcond]
      rw [h1, h2]
      exact string_append_empty n

theorem getLastD_mem_or (l : List String) (d : String) :
    l.getLastD d = d ∨ l.getLastD d ∈ l := by
  induction l generalizing d with
  | nil => left; rfl
  | cons a l ih =>
    rcases ih a with h | h
    · right
      rw [List.getLastD_cons, h]
      exact List.mem_cons_self a l
    · right
      rw [List.getLastD_cons]
      exact List.mem_cons_of_mem a h

theorem mem_pathParts_goodComp (p s : String) (h : s ∈ pathParts p) :
    goodComp s := by
  unfold pathParts at h
  rw [List.mem_filter] at h
  obtain ⟨hmem, hne⟩ := h
  rw [List.mem_map] at hmem
  obtain ⟨l, hl, rfl⟩ := hmem
  refine ⟨?_, ?_⟩
  · intro hh
    rw [hh] at hne
    simp at hne
  · exact mem_splitSlash_no_slash p.toList l hl

theorem pathName_mem (p : String) (h : pathName p ≠ "") :
    pathName p ∈ pathParts p := by
  rcases getLastD_mem_or (pathParts p) "" with hd | hd
  · exact absurd hd h
  · exact hd

theorem pathName_goodComp (p : String) (h : pathName p ≠ "") :
    goodComp (pathName p) :=
  mem_pathParts_goodComp p (pathName p) (pathName_mem p h)

theorem clean_output_path_of_read (env : Env) (fs : FS) (ip : String)
    (op : Option String) (text : String)
    (hr : read_markdown fs ip = some text) :
    (clean_markdown_with_llm env fs ip op).1.output_path
      = some (op.getD (get_output_path ip DEFAULT_OUTPUT_DIR)) := by
  cases hc : env.ctorOk with
  | false => cases op <;> simp [clean_markdown_with_llm, hr, hc]
  | true =>
    rw [clean_eq_of_read env fs ip op text hr hc]
    cases env.llm text with
    | error e => rfl
    | ok c =>
      by_cases hw : env.writable (op.getD (get_output_path ip DEFAULT_OUTPUT_DIR)) <;>
        simp [hw]

/-- C5: when no output path is supplied and the read succeeds, the
derived output path is the input's base filename placed under the fixed
default output directory `cleaned`; its base filename equals the
input's, and the input's extension (its `Path.suffix`) is preserved. -/
theorem clean_default_output_path (env : Env) (fs : FS) (ip text : String)
    (hr : read_markdown fs ip = some text) (hn : pathName ip ≠ "") :
    (clean_markdown_with_llm env fs ip none).1.output_path
        = some ("cleaned" ++ "/" ++ pathName ip) ∧
    pathName ("cleaned" ++ "/" ++ pathName ip) = pathName ip ∧
    nameSuffix (pathName ("cleaned" ++ "/" ++ pathName ip))
        = nameSuffix (pathName ip) := by
  have hg : goodComp (pathName ip) := pathName_goodComp ip hn
  have hgood2 : ∀ s ∈ ["cleaned", pathName ip], goodComp s := by
    intro s hs
    rcases List.mem_cons.mp hs with rfl | hs2
    · decide
    · rcases List.mem_cons.mp hs2 with rfl | hs3
      · exact hg
      · simp at hs3
  have hout : get_output_path ip DEFAULT_OUTPUT_DIR
      = "cleaned" ++ "/" ++ pathName ip := by
    simp only [get_output_path]
    rw [nameStem_append_nameSuffix, pathParts_single _ hn hg.2]
    have hjp : joinParts DEFAULT_OUTPUT_DIR [pathName ip]
        = joinComponents (["cleaned"] ++ [pathName ip]) :=
      joinParts_eq ["cleaned"] [pathName ip] (by decide)
    rw [hjp]
    rfl
  have hname : pathName ("cleaned" ++ "/" ++ pathName ip) = pathName ip := by
    have h1 : pathParts ("cleaned" ++ "/" ++ pathName ip)
        = ["cleaned", pathName ip] := by
      rw [show ("cleaned" ++ "/" ++ pathName ip)
            = joinComponents ["cleaned", pathName ip] from rfl]
      exact pathParts_joinComponents _ hgood2
    have h2 : pathName ("cleaned" ++ "/" ++ pathName ip)
        = (pathParts ("cleaned" ++ "/" ++ pathName ip)).getLastD "" := rfl
    rw [h2, h1]
    rfl
  refine ⟨?_, hname, by rw [hname]⟩
  rw [clean_output_path_of_read env fs ip none text hr]
  simp only [Option.getD_none]
  rw [hout]

theorem clean_default_output_path_witness :
    (clean_markdown_with_llm envEcho fsOne "docs/a.md" none).1.output_path
        = some ("cleaned" ++ "/" ++ pathName "docs/a.md") ∧
    pathName ("cleaned" ++ "/" ++ pathName "docs/a.md") = pathName "docs/a.md" ∧
    nameSuffix (pathName ("cleaned" ++ "/" ++ pathName "docs/a.md"))
        = nameSuffix (pathName "docs/a.md") :=
  clean_default_output_path envEcho fsOne "docs/a.md" "bonjour"
    (by decide) (by decide)

theorem isPrefixOf_append_self (l r : List String) :
    l.isPrefixOf (l ++ r) = true := by
  induction l with
  | nil => simp [List.isPrefixOf]
  | cons a l ih => simp [List.isPrefixOf, List.cons_append, ih]

/-- C6: the per-file output path of the batch loop re-roots a file under
`output_dir`: a file `input_dir/rest` maps to `output_dir/rest`
(sub-path preserved), and a file not under `input_dir` falls back to its
base filename under `output_dir`. -/
theorem batch_output_path_reroot (din dout rest : List String)
    (hdin : ∀ s ∈ din, goodComp s) (hdout : ∀ s ∈ dout, goodComp s)
    (hrest : ∀ s ∈ rest, goodComp s) (hne : rest ≠ []) :
    batchOutputPath (joinComponents din) (joinComponents dout)
        (joinComponents (din ++ rest)) = joinComponents (dout ++ rest) ∧
    (∀ f : String, inParents (joinComponents din) f = false →
      pathName f ≠ "" →
      batchOutputPath (joinComponents din) (joinComponents dout) f
        = joinComponents (dout ++ [pathName f])) := by
  have hall : ∀ s ∈ din ++ rest, goodComp s := by
    intro s hs
    rcases List.mem_append.mp hs with hs | hs
    · exact hdin s hs
    · exact hrest s hs
  constructor
  · have hin : inParents (joinComponents din)
        (joinComponents (din ++ rest)) = true := by
      unfold inParents
      rw [pathParts_joinComponents din hdin, pathParts_joinComponents _ hall]
      have h1 := isPrefixOf_append_self din rest
      have h2 : (din != din ++ rest) = true := by
        rw [bne_iff_ne]
        intro hdd
        apply hne
        have hlen := congrArg List.length hdd
        rw [List.length_append] at hlen
        have hz : rest.length = 0 := by omega
        exact List.length_eq_zero.mp hz
      rw [h1, h2]
      rfl
    unfold batchOutputPath
    rw [hin]
    simp only [if_true]
    rw [pathParts_joinComponents _ hall, pathParts_joinComponents din hdin,
        List.drop_left]
    exact joinParts_eq dout rest hdout
  · intro f hf hfn
    unfold batchOutputPath
    rw [hf]
    simp only [Bool.false_eq_true, if_false]
    rw [pathParts_single _ hfn (pathName_goodComp f hfn).2]
    exact joinParts_eq dout [pathName f] hdout

theorem batch_output_path_reroot_witness :
    batchOutputPath (joinComponents ["in"]) (joinComponents ["out"])
        (joinComponents (["in"] ++ ["sub", "c.md"]))
      = joinComponents (["out"] ++ ["sub", "c.md"]) ∧
    batchOutputPath (joinComponents ["in"]) (joinComponents ["out"]) "abs/c.md"
      = joinComponents (["out"] ++ [pathName "abs/c.md"]) :=
  ⟨(batch_output_path_reroot ["in"] ["out"] ["sub", "c.md"]
      (by decide) (by decide) (by decide) (by decide)).1,
   (batch_output_path_reroot ["in"] ["out"] ["sub", "c.md"]
      (by decide) (by decide) (by decide) (by decide)).2 "abs/c.md"
      (by decide) (by decide)⟩
